import Mathlib

/-!
# Verification of the mac-shell-mcp command service

Shallow embedding of `src/services/command-service.ts` (class `CommandService`):
the whitelist registry, the validator (`validateCommand`), the executor call
sites (`executeCommand`, `approveCommand`, `denyCommand`) and the pending-map
approval workflow.  External effects (process spawning, event emission,
promise resolution, map deletion) are recorded as an explicit effect trace;
external nondeterminism (`randomUUID`, the clock, the outcome of the spawned
process) is supplied through an `Env` oracle.  JavaScript strings are Lean
`String`s; `Map` is an association list; `RegExp` matchers are modelled by
their `test` function.
-/

/-- `CommandSecurityLevel` from the source: safe / requires_approval / forbidden. -/
inductive CommandSecurityLevel where
  | SAFE
  | REQUIRES_APPROVAL
  | FORBIDDEN
deriving DecidableEq, Repr

/-- An entry of `allowedArgs`: a JS string (exact match) or a `RegExp`
(pattern match, modelled by its `test` function). -/
inductive ArgMatcher where
  | exactStr (s : String)
  | pattern (test : String → Bool)

/-- `CommandWhitelistEntry` from the source.  `allowedArgs?` is optional. -/
structure CommandWhitelistEntry where
  command : String
  securityLevel : CommandSecurityLevel
  allowedArgs : Option (List ArgMatcher)
  description : Option String

/-- Association-list model of a JS `Map` keyed by strings. -/
abbrev MapStr (α : Type) : Type := List (String × α)

namespace MapStr

/-- `Map.prototype.get`. -/
def get? {α : Type} (m : MapStr α) (k : String) : Option α :=
  (List.find? (fun p => p.1 == k) m).map (fun p => p.2)

/-- `Map.prototype.set`: overwrite in place if the key exists, else append. -/
def set {α : Type} (m : MapStr α) (k : String) (v : α) : MapStr α :=
  if List.any m (fun p => p.1 == k) then
    List.map (fun p => if p.1 == k then (k, v) else p) m
  else
    m ++ [(k, v)]

/-- `Map.prototype.delete` (result value dropped, as in the source). -/
def delete {α : Type} (m : MapStr α) (k : String) : MapStr α :=
  List.filter (fun p => p.1 != k) m

end MapStr

/-- JS `command.split('/')` on the character list (split on every `'/'`,
keeping empty segments, as `String.prototype.split` does for a one-character
separator). -/
def splitOnSlash : List Char → List (List Char)
  | [] => [[]]
  | c :: rest =>
    if c = '/' then
      [] :: splitOnSlash rest
    else
      match splitOnSlash rest with
      | [] => [[c]]
      | s :: ss => (c :: s) :: ss

/-- `const baseCommand = command.split('/').pop() || command;`
(`pop()` on the nonempty split result is its last element; the `||` falls
back to the whole string when that element is the empty string). -/
def baseCommand (command : String) : String :=
  let last := (splitOnSlash command.data).getLastD []
  if last.isEmpty then command else String.mk last

/-- `pattern.test(arg)` / `arg === pattern` dispatch of the source. -/
def matcherAccepts : ArgMatcher → String → Bool
  | .exactStr p, arg => arg == p
  | .pattern t, arg => t arg

/-- JS falsiness of a matcher value: the empty string is falsy, every
`RegExp` object is truthy (`if (!pattern) return false;`). -/
def matcherFalsy : ArgMatcher → Bool
  | .exactStr p => p == ""
  | .pattern _ => false

/-- Body of the `args.every((arg, index) => ...)` callback. -/
def argCheck (matchers : List ArgMatcher) (index : Nat) (arg : String) : Bool :=
  if matchers.length ≤ index then false
  else
    match matchers.get? index with
    | none => false
    | some m => if matcherFalsy m then false else matcherAccepts m arg

/-- `args.every(...)` with the running index made explicit. -/
def argsValidFrom (matchers : List ArgMatcher) : Nat → List String → Bool
  | _, [] => true
  | i, a :: rest => argCheck matchers i a && argsValidFrom matchers (i + 1) rest

/-- `CommandService.validateCommand` (whitelist passed explicitly). -/
def validateCommand (whitelist : MapStr CommandWhitelistEntry)
    (command : String) (args : List String) : Option CommandSecurityLevel :=
  let baseCmd := baseCommand command
  match whitelist.get? baseCmd with
  | none => none
  | some entry =>
    if entry.securityLevel = .FORBIDDEN then
      some .FORBIDDEN
    else
      match entry.allowedArgs with
      | some matchers =>
        if 0 < matchers.length then
          if argsValidFrom matchers 0 args then some entry.securityLevel
          else some .REQUIRES_APPROVAL
        else some entry.securityLevel
      | none => some entry.securityLevel

/-- `PendingCommand` from the source.  The `resolve`/`reject` callbacks are
modelled by effect-trace entries (`Effect.resolveCont` / `Effect.rejectCont`)
keyed by the pending id; `requestedAt : Date` is a wall-clock value supplied
by the environment, modelled as a `Nat`. -/
structure PendingCommand where
  id : String
  command : String
  args : List String
  requestedAt : Nat
  requestedBy : Option String
deriving DecidableEq, Repr

/-- `CommandResult` from the source. -/
structure CommandResult where
  stdout : String
  stderr : String
deriving DecidableEq, Repr

/-- A value thrown by JS code: an `Error` carrying its `.message`, or a
non-`Error` value (the `error instanceof Error` test distinguishes them). -/
inductive Thrown where
  | error (message : String)
  | nonError
deriving DecidableEq, Repr

/-- One invocation of `execFileAsync(file, argv, options)`: the options object
carries the optional `timeout` and the optional `shell` exactly as the two
call sites build it. -/
structure ExecCall where
  file : String
  argv : List String
  timeout : Option Nat
  shell : Option String
deriving DecidableEq, Repr

/-- Outcome of an awaited `execFileAsync` call, decided by the outside world. -/
inductive ExecOutcome where
  | ok (stdout : String) (stderr : String)
  | threw (t : Thrown)
deriving DecidableEq, Repr

/-- Payload of an `EventEmitter.emit` call in the source. -/
inductive EventPayload where
  | pending (p : PendingCommand)
  | approved (commandId : String) (stdout : String) (stderr : String)
  | failed (commandId : String) (error : Thrown)
  | denied (commandId : String) (reason : String)
deriving DecidableEq, Repr

/-- Externally observable effects of one operation, in program order. -/
inductive Effect where
  /-- `execFileAsync` was invoked. -/
  | execCall (c : ExecCall)
  /-- `this.emit('command:...', payload)`. -/
  | emit (p : EventPayload)
  /-- `this.pendingCommands.delete(id)`. -/
  | deletePending (id : String)
  /-- `pendingCommand.resolve(result)` on the stored continuation. -/
  | resolveCont (id : String) (r : CommandResult)
  /-- `pendingCommand.reject(error)` on the stored continuation. -/
  | rejectCont (id : String) (t : Thrown)
deriving DecidableEq, Repr

/-- Result of a call to `executeCommand` / `approveCommand` as seen by its
direct caller: a resolved value, a suspension awaiting approval (the promise
created by `queueCommandForApproval`, identified by the fresh id), or a
thrown value. -/
inductive OpResult where
  | value (r : CommandResult)
  | pendingWait (id : String)
  | thrown (t : Thrown)
deriving DecidableEq, Repr

/-- External nondeterminism: the id `randomUUID()` returns, the clock, and
the behavior of the spawned process for a given invocation. -/
structure Env where
  freshId : String
  now : Nat
  execResult : ExecCall → ExecOutcome

/-- Mutable fields of a `CommandService` instance. -/
structure ServiceState where
  shell : String
  whitelist : MapStr CommandWhitelistEntry
  pendingCommands : MapStr PendingCommand
  defaultTimeout : Nat

/-- `CommandService.queueCommandForApproval`: store a fresh `PendingCommand`
and emit `command:pending`; the returned promise stays unresolved. -/
def queueCommandForApproval (env : Env) (s : ServiceState)
    (command : String) (args : List String) (requestedBy : Option String) :
    OpResult × ServiceState × List Effect :=
  let id := env.freshId
  let pendingCommand : PendingCommand :=
    { id := id, command := command, args := args,
      requestedAt := env.now, requestedBy := requestedBy }
  let s' := { s with pendingCommands := s.pendingCommands.set id pendingCommand }
  (.pendingWait id, s', [.emit (.pending pendingCommand)])

/-- `const timeout = options.timeout || this.defaultTimeout;` — JS `||`
falls back on the default when `options.timeout` is absent or `0` (falsy). -/
def resolvedTimeout (timeoutOpt : Option Nat) (defaultTimeout : Nat) : Nat :=
  match timeoutOpt with
  | some t => if t == 0 then defaultTimeout else t
  | none => defaultTimeout

/-- `CommandService.executeCommand`. -/
def executeCommand (env : Env) (s : ServiceState)
    (command : String) (args : List String)
    (timeoutOpt : Option Nat) (requestedBy : Option String) :
    OpResult × ServiceState × List Effect :=
  match validateCommand s.whitelist command args with
  | none => (.thrown (.error ("Command not whitelisted: " ++ command)), s, [])
  | some securityLevel =>
    if securityLevel = .FORBIDDEN then
      (.thrown (.error ("Command is forbidden: " ++ command)), s, [])
    else if securityLevel = .REQUIRES_APPROVAL then
      queueCommandForApproval env s command args requestedBy
    else
      let timeout := resolvedTimeout timeoutOpt s.defaultTimeout
      let call : ExecCall :=
        { file := command, argv := args,
          timeout := some timeout, shell := some s.shell }
      match env.execResult call with
      | .ok stdout stderr =>
        (.value { stdout := stdout, stderr := stderr }, s, [.execCall call])
      | .threw (.error m) =>
        (.thrown (.error ("Command execution failed: " ++ m)), s, [.execCall call])
      | .threw .nonError =>
        (.thrown .nonError, s, [.execCall call])

/-- `CommandService.approveCommand`. -/
def approveCommand (env : Env) (s : ServiceState) (commandId : String) :
    OpResult × ServiceState × List Effect :=
  match s.pendingCommands.get? commandId with
  | none =>
    (.thrown (.error ("No pending command with ID: " ++ commandId)), s, [])
  | some pendingCommand =>
    let call : ExecCall :=
      { file := pendingCommand.command, argv := pendingCommand.args,
        timeout := none, shell := some s.shell }
    let s' := { s with pendingCommands := s.pendingCommands.delete commandId }
    match env.execResult call with
    | .ok stdout stderr =>
      (.value { stdout := stdout, stderr := stderr }, s',
        [.execCall call, .deletePending commandId,
         .emit (.approved commandId stdout stderr),
         .resolveCont commandId { stdout := stdout, stderr := stderr }])
    | .threw (.error m) =>
      (.thrown (.error m), s',
        [.execCall call, .deletePending commandId,
         .emit (.failed commandId (.error m)),
         .rejectCont commandId (.error m)])
    | .threw .nonError =>
      (.thrown (.error "Command execution failed"), s',
        [.execCall call, .deletePending commandId,
         .emit (.failed commandId .nonError),
         .rejectCont commandId (.error "Command execution failed")])

/-- Default value of `denyCommand`'s `reason` parameter. -/
def defaultDenyReason : String := "Command denied"

/-- `CommandService.denyCommand` (returns `void`; `none` models a normal
return, `some t` a thrown value). -/
def denyCommand (s : ServiceState) (commandId : String) (reason : String) :
    Option Thrown × ServiceState × List Effect :=
  match s.pendingCommands.get? commandId with
  | none =>
    (some (.error ("No pending command with ID: " ++ commandId)), s, [])
  | some _ =>
    let s' := { s with pendingCommands := s.pendingCommands.delete commandId }
    (none, s',
      [.deletePending commandId,
       .emit (.denied commandId reason),
       .rejectCont commandId (.error reason)])

/-- The entries installed by the constructor's default-whitelist setup. -/
def defaultWhitelistEntries : List CommandWhitelistEntry :=
  [ { command := "ls", securityLevel := .SAFE, allowedArgs := none,
      description := some "List directory contents" },
    { command := "pwd", securityLevel := .SAFE, allowedArgs := none,
      description := some "Print working directory" },
    { command := "echo", securityLevel := .SAFE, allowedArgs := none,
      description := some "Print text to standard output" },
    { command := "cat", securityLevel := .SAFE, allowedArgs := none,
      description := some "Concatenate and print files" },
    { command := "grep", securityLevel := .SAFE, allowedArgs := none,
      description := some "Search for patterns in files" },
    { command := "find", securityLevel := .SAFE, allowedArgs := none,
      description := some "Find files in a directory hierarchy" },
    { command := "cd", securityLevel := .SAFE, allowedArgs := none,
      description := some "Change directory" },
    { command := "head", securityLevel := .SAFE, allowedArgs := none,
      description := some "Output the first part of files" },
    { command := "tail", securityLevel := .SAFE, allowedArgs := none,
      description := some "Output the last part of files" },
    { command := "wc", securityLevel := .SAFE, allowedArgs := none,
      description := some "Print newline, word, and byte counts" },
    { command := "mv", securityLevel := .REQUIRES_APPROVAL, allowedArgs := none,
      description := some "Move (rename) files" },
    { command := "cp", securityLevel := .REQUIRES_APPROVAL, allowedArgs := none,
      description := some "Copy files and directories" },
    { command := "mkdir", securityLevel := .REQUIRES_APPROVAL, allowedArgs := none,
      description := some "Create directories" },
    { command := "touch", securityLevel := .REQUIRES_APPROVAL, allowedArgs := none,
      description := some "Change file timestamps or create empty files" },
    { command := "chmod", securityLevel := .REQUIRES_APPROVAL, allowedArgs := none,
      description := some "Change file mode bits" },
    { command := "chown", securityLevel := .REQUIRES_APPROVAL, allowedArgs := none,
      description := some "Change file owner and group" },
    { command := "rm", securityLevel := .FORBIDDEN, allowedArgs := none,
      description := some "Remove files or directories" },
    { command := "sudo", securityLevel := .FORBIDDEN, allowedArgs := none,
      description := some "Execute a command as another user" } ]

/-- The constructor: default whitelist installed via `Map.set` in order. -/
def mkService (shell : String) (defaultTimeout : Nat) : ServiceState :=
  { shell := shell,
    whitelist :=
      defaultWhitelistEntries.foldl (fun m e => m.set e.command e) [],
    pendingCommands := [],
    defaultTimeout := defaultTimeout }

/-- The default-constructed service (`new CommandService()`): shell
`/bin/zsh`, default timeout `30000`. -/
def defaultService : ServiceState := mkService "/bin/zsh" 30000

/-- `[file, ...args].join(' ')`. -/
def joinSpace : List String → String
  | [] => ""
  | [x] => x
  | x :: xs => x ++ " " ++ joinSpace xs

/-- Modelled from the spec: §4.3's "operating system's process-creation
facility", instantiated with the documented dispatch of the Node
`child_process.execFile` facility that both call sites use (this dispatch is
library behavior, not part of `src/`).  When the `shell` option is unset, the
facility receives `(file, argv)` as a literal, already-split argument vector;
when it is set to a shell path, the file and the arguments are joined into
one command-line string that the shell re-parses (`shell -c "file args..."`). -/
def spawnedInvocation (c : ExecCall) : String × List String :=
  match c.shell with
  | none => (c.file, c.argv)
  | some sh => (sh, ["-c", joinSpace (c.file :: c.argv)])

/-- `true` iff a `deletePending id` effect occurs strictly before the first
process invocation of the trace (vacuously `true` when nothing is spawned). -/
def removalPrecedesExec (id : String) : List Effect → Bool
  | [] => true
  | .deletePending i :: rest =>
    if i == id then true else removalPrecedesExec id rest
  | .execCall _ :: _ => false
  | .emit _ :: rest => removalPrecedesExec id rest
  | .resolveCont _ _ :: rest => removalPrecedesExec id rest
  | .rejectCont _ _ :: rest => removalPrecedesExec id rest

/-- Number of continuation signals (resolve or reject) addressed to `id`. -/
def resolutionCount (id : String) (fx : List Effect) : Nat :=
  (fx.filter (fun e =>
    match e with
    | .resolveCont i _ => i == id
    | .rejectCont i _ => i == id
    | _ => false)).length

/-- `true` iff the trace spawns at least one process. -/
def hasExecCall (fx : List Effect) : Bool :=
  fx.any (fun e => match e with | .execCall _ => true | _ => false)

/-- A positional argument check in the sense of the spec: a supplied argument
differs from its exact-string matcher, fails its pattern matcher, or sits at
a position beyond the matcher list. -/
def positionalCheckFails (matchers : List ArgMatcher) (args : List String) : Prop :=
  matchers.length < args.length ∨
  ∃ i a m, args.get? i = some a ∧ matchers.get? i = some m ∧
    matcherAccepts m a = false

/-- Environment whose process oracle always succeeds. -/
def envAppOk : Env :=
  { freshId := "uuid-1", now := 0, execResult := fun _ => .ok "out" "err" }

/-- Environment whose process oracle always throws `Error("boom")`. -/
def envBoom : Env :=
  { freshId := "uuid-1", now := 0, execResult := fun _ => .threw (.error "boom") }

/-- A pending `mv a b` entry under id `id1`. -/
def pendingMv : PendingCommand :=
  { id := "id1", command := "mv", args := ["a", "b"],
    requestedAt := 0, requestedBy := none }

/-- A service holding `pendingMv` in its approval queue. -/
def approveState : ServiceState :=
  { shell := "/bin/zsh", whitelist := [],
    pendingCommands := [("id1", pendingMv)], defaultTimeout := 30000 }

/-- A pending `echo hi` entry under id `id1`. -/
def pendingEcho : PendingCommand :=
  { id := "id1", command := "echo", args := ["hi"],
    requestedAt := 0, requestedBy := none }

/-- A default-whitelist service holding `pendingEcho` in its approval queue. -/
def echoPendingState : ServiceState :=
  { shell := "/bin/zsh", whitelist := defaultService.whitelist,
    pendingCommands := [("id1", pendingEcho)], defaultTimeout := 30000 }

/-- An argument containing a shell command substitution. -/
def injectionArg : String := "$(touch /tmp/pwned)"

/-- A pending `echo` entry whose argument carries shell metacharacters. -/
def pendingInjection : PendingCommand :=
  { id := "id1", command := "echo", args := [injectionArg],
    requestedAt := 0, requestedBy := none }

/-- A default-whitelist service holding `pendingInjection`. -/
def injectionState : ServiceState :=
  { shell := "/bin/zsh", whitelist := defaultService.whitelist,
    pendingCommands := [("id1", pendingInjection)], defaultTimeout := 30000 }

/-- A Safe `git` entry that only allows the literal argument `status`. -/
def gitEntry : CommandWhitelistEntry :=
  { command := "git", securityLevel := .SAFE,
    allowedArgs := some [.exactStr "status"], description := none }

/-- A service whose whitelist is just `gitEntry`. -/
def matcherService : ServiceState :=
  { shell := "/bin/zsh", whitelist := [("git", gitEntry)],
    pendingCommands := [], defaultTimeout := 30000 }

/-- Registry with a slash-terminated key, for path-handling edge cases. -/
def slashKeyReg : MapStr CommandWhitelistEntry :=
  [("a/", { command := "a/", securityLevel := .SAFE,
            allowedArgs := none, description := none })]

/-- Registry whose `ls` entry has an empty-string exact matcher in first
position. -/
def emptyMatcherReg : MapStr CommandWhitelistEntry :=
  [("ls", { command := "ls", securityLevel := .SAFE,
            allowedArgs := some [.exactStr "", .exactStr "x"],
            description := none })]

/-- Registry whose `git` entry allows `log` then an optional `-n`. -/
def twoMatcherReg : MapStr CommandWhitelistEntry :=
  [("git", { command := "git", securityLevel := .SAFE,
             allowedArgs := some [.exactStr "log", .pattern (fun a => a == "-n")],
             description := none })]

namespace MapStr

theorem get?_delete_self {α : Type} (m : MapStr α) (k : String) :
    (m.delete k).get? k = none := by
  induction m with
  | nil => rfl
  | cons p m ih =>
    simp only [delete, List.filter_cons] at ih ⊢
    by_cases h : p.1 = k
    · have hb : (p.1 != k) = false := by simp [bne, h]
      rw [hb, if_neg Bool.false_ne_true]
      exact ih
    · have hb : (p.1 != k) = true := by simp [bne, h]
      rw [hb]
      simp only [if_true, get?, List.find?]
      have hbeq : (p.1 == k) = false := by simp [h]
      rw [hbeq]
      simpa using ih

theorem find?_map_replace {α : Type} (k : String) (v : α) (m : MapStr α)
    (h : List.any m (fun p => p.1 == k) = true) :
    List.find? (fun p => p.1 == k)
        (List.map (fun p => if p.1 == k then (k, v) else p) m) = some (k, v) := by
  induction m with
  | nil => simp at h
  | cons p m ih =>
    by_cases hp : p.1 = k
    · have hmap : List.map (fun q => if q.1 == k then (k, v) else q) (p :: m)
          = (k, v) :: List.map (fun q => if q.1 == k then (k, v) else q) m := by
        simp [hp]
      rw [hmap, List.find?_cons_of_pos _ (by simp)]
    · have hmap : List.map (fun q => if q.1 == k then (k, v) else q) (p :: m)
          = p :: List.map (fun q => if q.1 == k then (k, v) else q) m := by
        simp [hp]
      rw [hmap, List.find?_cons_of_neg _ (by simp [hp])]
      exact ih (by simpa [hp] using h)

theorem find?_append_single {α : Type} (k : String) (v : α) (m : MapStr α)
    (h : List.any m (fun p => p.1 == k) = false) :
    List.find? (fun p => p.1 == k) (m ++ [(k, v)]) = some (k, v) := by
  induction m with
  | nil => rw [List.nil_append, List.find?_cons_of_pos _ (by simp)]
  | cons p m ih =>
    by_cases hp : p.1 = k
    · simp [List.any_cons, hp] at h
    · rw [List.cons_append, List.find?_cons_of_neg _ (by simp [hp])]
      simp only [List.any_cons, Bool.or_eq_false_iff] at h
      exact ih h.2

theorem get?_set_self {α : Type} (m : MapStr α) (k : String) (v : α) :
    (m.set k v).get? k = some v := by
  unfold set get?
  by_cases h : List.any m (fun p => p.1 == k)
  · rw [if_pos h, find?_map_replace k v m h]
    rfl
  · rw [if_neg h, find?_append_single k v m (Bool.eq_false_iff.mpr h)]
    rfl

end MapStr

theorem splitOnSlash_ne_nil (l : List Char) : splitOnSlash l ≠ [] := by
  induction l with
  | nil => simp [splitOnSlash]
  | cons c rest ih =>
    by_cases h : c = '/'
    · simp [splitOnSlash, h]
    · simp only [splitOnSlash, if_neg h]
      cases hs : splitOnSlash rest with
      | nil => simp
      | cons s ss => simp

/-- Splitting a slash-free list yields the single segment. -/
theorem splitOnSlash_no_slash (l : List Char) (h : '/' ∉ l) :
    splitOnSlash l = [l] := by
  induction l with
  | nil => rfl
  | cons c rest ih =>
    have hc : c ≠ '/' := fun hc => h (hc ▸ List.mem_cons_self c rest)
    have hrest : '/' ∉ rest := fun hr => h (List.mem_cons_of_mem c hr)
    simp [splitOnSlash, hc, ih hrest]

theorem splitOnSlash_length_two (xs ys : List Char) :
    2 ≤ (splitOnSlash (xs ++ '/' :: ys)).length := by
  induction xs with
  | nil =>
    simp only [List.nil_append, splitOnSlash, if_pos rfl, List.length_cons]
    have := splitOnSlash_ne_nil ys
    cases hs : splitOnSlash ys with
    | nil => exact absurd hs this
    | cons s ss => simp
  | cons c rest ih =>
    by_cases h : c = '/'
    · simp only [List.cons_append, splitOnSlash, if_pos h, List.length_cons]
      have := splitOnSlash_ne_nil (rest ++ '/' :: ys)
      cases hs : splitOnSlash (rest ++ '/' :: ys) with
      | nil => exact absurd hs this
      | cons s ss => simp
    · simp only [List.cons_append, splitOnSlash, if_neg h]
      cases hs : splitOnSlash (rest ++ '/' :: ys) with
      | nil => exact absurd hs (splitOnSlash_ne_nil _)
      | cons s ss =>
        rw [hs] at ih
        simpa using ih

/-- The last segment after a final slash-free suffix is that suffix. -/
theorem splitOnSlash_getLastD (xs ys : List Char) (h : '/' ∉ ys) :
    (splitOnSlash (xs ++ '/' :: ys)).getLastD [] = ys := by
  induction xs with
  | nil =>
    simp only [List.nil_append, splitOnSlash, if_pos rfl]
    rw [splitOnSlash_no_slash ys h]
    rfl
  | cons c rest ih =>
    by_cases hc : c = '/'
    · simp only [List.cons_append, splitOnSlash, if_pos hc]
      cases hs : splitOnSlash (rest ++ '/' :: ys) with
      | nil => exact absurd hs (splitOnSlash_ne_nil _)
      | cons s ss =>
        rw [hs] at ih
        simpa using ih
    · simp only [List.cons_append, splitOnSlash, if_neg hc]
      cases hs : splitOnSlash (rest ++ '/' :: ys) with
      | nil => exact absurd hs (splitOnSlash_ne_nil _)
      | cons s ss =>
        have hlen := splitOnSlash_length_two rest ys
        rw [hs] at hlen ih
        cases ss with
        | nil => simp at hlen
        | cons t ts => simpa using ih


/-- `argCheck` at an index holding matcher `m` is `m`'s own check (guarded by
the JS falsiness test). -/
theorem argCheck_of_get (matchers : List ArgMatcher) (i : Nat) (m : ArgMatcher)
    (hm : matchers.get? i = some m) (arg : String) :
    argCheck matchers i arg
      = if matcherFalsy m then false else matcherAccepts m arg := by
  have hilt : i < matchers.length := by
    by_contra hge
    rw [List.get?_eq_none.mpr (Nat.le_of_not_lt hge)] at hm
    exact Option.noConfusion hm
  unfold argCheck
  rw [if_neg (Nat.not_le.mpr hilt), hm]

/-- `args.every` with running index `k` succeeds iff every supplied argument
passes its (shifted) positional check. -/
theorem argsValidFrom_iff (matchers : List ArgMatcher) (k : Nat) (args : List String) :
    argsValidFrom matchers k args = true ↔
      ∀ i a, args.get? i = some a → argCheck matchers (k + i) a = true := by
  induction args generalizing k with
  | nil =>
    simp only [argsValidFrom, true_iff]
    intro i a ha
    simp [List.get?] at ha
  | cons a rest ih =>
    simp only [argsValidFrom, Bool.and_eq_true]
    constructor
    · rintro ⟨h1, h2⟩ i b hb
      cases i with
      | zero =>
        have hb' : some a = some b := hb
        cases hb'
        simpa using h1
      | succ j =>
        have hb' : rest.get? j = some b := hb
        have hres := (ih (k + 1)).mp h2 j b hb'
        have harith : k + 1 + j = k + (j + 1) := by omega
        rwa [harith] at hres
    · intro h
      refine ⟨?_, (ih (k + 1)).mpr ?_⟩
      · have h0 := h 0 a rfl
        simpa using h0
      · intro j b hb
        have hj := h (j + 1) b hb
        have harith : k + (j + 1) = k + 1 + j := by omega
        rwa [harith] at hj

/-- A spec-level positional failure makes the source's `args.every` fail. -/
theorem positionalCheckFails_invalid (matchers : List ArgMatcher)
    (args : List String) (h : positionalCheckFails matchers args) :
    argsValidFrom matchers 0 args = false := by
  cases hb : argsValidFrom matchers 0 args
  · rfl
  · exfalso
    have hall := (argsValidFrom_iff matchers 0 args).mp hb
    rcases h with hlen | ⟨i, a, m, ha, hm, hacc⟩
    · have hsome := List.get?_eq_get hlen
      have hx := hall matchers.length _ hsome
      rw [Nat.zero_add] at hx
      simp [argCheck] at hx
    · have hc := argCheck_of_get matchers i m hm a
      have hx := hall i a ha
      rw [Nat.zero_add, hc] at hx
      by_cases hf : matcherFalsy m = true
      · rw [if_pos hf] at hx
        exact Bool.false_ne_true hx
      · rw [if_neg hf] at hx
        rw [hacc] at hx
        exact Bool.false_ne_true hx


/-- A nonempty string has nonempty character data. -/
theorem string_data_ne_nil (s : String) (h : s ≠ "") : s.data ≠ [] := by
  intro hd
  apply h
  show String.mk s.data = ""
  rw [hd]

/-- `getLastD` of a one-element list. -/
theorem getLastD_singleton {α : Type} (x d : α) : List.getLastD [x] d = x := by
  simp [List.getLastD]

/-- Unfolded form of `baseCommand`. -/
theorem baseCommand_eq (c : String) :
    baseCommand c =
      if ((splitOnSlash c.data).getLastD []).isEmpty then c
      else String.mk ((splitOnSlash c.data).getLastD []) := rfl

/-- For a nonempty slash-free suffix, the derived base name is that suffix. -/
theorem baseCommand_prefixed (p n : String) (hn : n ≠ "") (hs : '/' ∉ n.data) :
    baseCommand (p ++ "/" ++ n) = n := by
  have hdata : (p ++ "/" ++ n).data = p.data ++ '/' :: n.data := by
    rw [String.data_append, String.data_append, List.append_assoc]
    rfl
  have hie : n.data.isEmpty = false := by
    cases hd : n.data with
    | nil => exact absurd hd (string_data_ne_nil n hn)
    | cons c cs => rfl
  rw [baseCommand_eq, hdata, splitOnSlash_getLastD p.data n.data hs, hie,
    if_neg Bool.false_ne_true]

/-- A nonempty command without a slash is its own base name. -/
theorem baseCommand_no_slash (n : String) (hn : n ≠ "") (hs : '/' ∉ n.data) :
    baseCommand n = n := by
  have hie : n.data.isEmpty = false := by
    cases hd : n.data with
    | nil => exact absurd hd (string_data_ne_nil n hn)
    | cons c cs => rfl
  rw [baseCommand_eq, splitOnSlash_no_slash n.data hs, getLastD_singleton, hie,
    if_neg Bool.false_ne_true]

/-- A command ending in `'/'` falls back to the whole original string. -/
theorem baseCommand_trailing_slash (c : String) (l : List Char)
    (h : c.data = l ++ ['/']) : baseCommand c = c := by
  have hlast : (splitOnSlash c.data).getLastD [] = [] := by
    rw [h]
    have hgl := splitOnSlash_getLastD l [] (by simp)
    simpa using hgl
  rw [baseCommand_eq, hlast]
  rfl

/-- Successful lookup makes `approveCommand` spawn first (with the stored
command and argument vector and no timeout) and delete the entry second,
whatever the process outcome. -/
theorem approve_trace_structure (env : Env) (s : ServiceState) (id : String)
    (pc : PendingCommand) (h : s.pendingCommands.get? id = some pc) :
    ∃ rest, (approveCommand env s id).2.2 =
      .execCall { file := pc.command, argv := pc.args,
                  timeout := none, shell := some s.shell }
        :: .deletePending id :: rest := by
  simp only [approveCommand, h]
  cases hout : env.execResult (ExecCall.mk pc.command pc.args none (some s.shell)) with
  | ok o e => exact ⟨_, rfl⟩
  | threw t =>
    cases t with
    | error m => exact ⟨_, rfl⟩
    | nonError => exact ⟨_, rfl⟩

/-- `approveCommand` never consults the whitelist: its caller-visible result,
its effect trace and its resulting pending map are invariant under replacing
the whitelist. -/
theorem approve_ignores_whitelist (env : Env) (s : ServiceState) (id : String)
    (w : MapStr CommandWhitelistEntry) :
    (approveCommand env { s with whitelist := w } id).1
        = (approveCommand env s id).1 ∧
    (approveCommand env { s with whitelist := w } id).2.2
        = (approveCommand env s id).2.2 ∧
    (approveCommand env { s with whitelist := w } id).2.1.pendingCommands
        = (approveCommand env s id).2.1.pendingCommands := by
  cases hget : s.pendingCommands.get? id with
  | none =>
    have hget2 : ({ s with whitelist := w } : ServiceState).pendingCommands.get? id
        = none := hget
    simp only [approveCommand, hget, hget2]
    refine ⟨?_, ?_, ?_⟩ <;> first | rfl | trivial
  | some pc =>
    have hget2 : ({ s with whitelist := w } : ServiceState).pendingCommands.get? id
        = some pc := hget
    simp only [approveCommand, hget, hget2]
    cases hout : env.execResult (ExecCall.mk pc.command pc.args none (some s.shell)) with
    | ok o e => refine ⟨?_, ?_, ?_⟩ <;> first | rfl | trivial
    | threw t =>
      cases t with
      | error m => refine ⟨?_, ?_, ?_⟩ <;> first | rfl | trivial
      | nonError => refine ⟨?_, ?_, ?_⟩ <;> first | rfl | trivial

/-- Claim C1 (code-bug evidence): both executor call sites pass the option
`shell: this.shell` (`/bin/zsh`) to `execFileAsync`.  On the immediate Safe
path and on the post-approval path the recorded invocation therefore carries
`shell := some "/bin/zsh"`, and the process-creation facility receives the
command and the argument joined into a single `zsh -c` command line — the
argument's shell metacharacters (a command substitution) sit inside a
shell-reparsed string instead of an opaque argument-vector slot. -/
theorem c1_shell_option_defeats_argument_vector :
    (executeCommand envAppOk defaultService "echo" [injectionArg] none none).2.2
      = [.execCall { file := "echo", argv := [injectionArg],
                     timeout := some 30000, shell := some "/bin/zsh" }] ∧
    spawnedInvocation { file := "echo", argv := [injectionArg],
                        timeout := some 30000, shell := some "/bin/zsh" }
      = ("/bin/zsh", ["-c", "echo " ++ injectionArg]) ∧
    List.head? ((approveCommand envAppOk injectionState "id1").2.2)
      = some (.execCall { file := "echo", argv := [injectionArg],
                          timeout := none, shell := some "/bin/zsh" }) ∧
    spawnedInvocation { file := "echo", argv := [injectionArg],
                        timeout := none, shell := some "/bin/zsh" }
      = ("/bin/zsh", ["-c", "echo " ++ injectionArg]) :=
  ⟨rfl, rfl, rfl, rfl⟩

/-- Claim C2 counterexample: with `mv a b` pending under `id1`, approval
spawns the process as its very first effect — no `deletePending` precedes any
`execCall` in the trace, so the entry is still in the pending map when the
Executor is invoked, contradicting remove-before-invoke. -/
theorem c2_counterexample_exec_before_removal :
    (approveState.pendingCommands.get? "id1").isSome = true ∧
    hasExecCall ((approveCommand envAppOk approveState "id1").2.2) = true ∧
    removalPrecedesExec "id1" ((approveCommand envAppOk approveState "id1").2.2)
      = false := by
  decide

/-- Claim C2 (amended): for every id present in the pending map,
`approveCommand` invokes the Executor with the original, already-validated
command and arguments while the entry is still in the map, and removes the
entry immediately afterwards (the trace starts `execCall` then
`deletePending`); it never re-runs the Validator — its result, trace and
resulting pending map are invariant under replacing the whitelist. -/
theorem c2_approve_executes_then_removes (env : Env) (s : ServiceState)
    (id : String) (pc : PendingCommand)
    (h : s.pendingCommands.get? id = some pc) :
    ((approveCommand env s id).2.2).get? 0
        = some (.execCall { file := pc.command, argv := pc.args,
                            timeout := none, shell := some s.shell }) ∧
    ((approveCommand env s id).2.2).get? 1 = some (.deletePending id) ∧
    (∀ w : MapStr CommandWhitelistEntry,
      (approveCommand env { s with whitelist := w } id).1
          = (approveCommand env s id).1 ∧
      (approveCommand env { s with whitelist := w } id).2.2
          = (approveCommand env s id).2.2 ∧
      (approveCommand env { s with whitelist := w } id).2.1.pendingCommands
          = (approveCommand env s id).2.1.pendingCommands) := by
  obtain ⟨rest, hr⟩ := approve_trace_structure env s id pc h
  refine ⟨?_, ?_, fun w => approve_ignores_whitelist env s id w⟩
  · rw [hr]
    rfl
  · rw [hr]
    rfl

theorem c2_approve_executes_then_removes_witness :
    ((approveCommand envAppOk approveState "id1").2.2).get? 0
        = some (.execCall { file := "mv", argv := ["a", "b"],
                            timeout := none, shell := some "/bin/zsh" }) ∧
    ((approveCommand envAppOk approveState "id1").2.2).get? 1
        = some (.deletePending "id1") ∧
    (approveCommand envAppOk
          { approveState with whitelist := defaultService.whitelist } "id1").1
        = (approveCommand envAppOk approveState "id1").1 :=
  ⟨(c2_approve_executes_then_removes envAppOk approveState "id1" pendingMv rfl).1,
   (c2_approve_executes_then_removes envAppOk approveState "id1" pendingMv rfl).2.1,
   ((c2_approve_executes_then_removes envAppOk approveState "id1" pendingMv rfl).2.2
      defaultService.whitelist).1⟩

/-- Claim C4 counterexample: with `mv a b` pending under `id1`, the
post-approval invocation carries `timeout := none` — no wall-clock bound is
supplied to the process-creation call on the approval path. -/
theorem c4_counterexample_no_timeout_after_approval :
    (approveState.pendingCommands.get? "id1").isSome = true ∧
    List.head? ((approveCommand envAppOk approveState "id1").2.2)
      = some (.execCall { file := "mv", argv := ["a", "b"],
                          timeout := none, shell := some "/bin/zsh" }) := by
  decide

/-- Claim C4 (amended): only the immediate Safe path supplies a wall-clock
timeout to the process invocation (the caller's nonzero value, else the
default); the post-approval execution is invoked with no timeout at all. -/
theorem c4_timeout_only_on_safe_path :
    (∀ (env : Env) (s : ServiceState) (command : String) (args : List String)
        (timeoutOpt : Option Nat) (requestedBy : Option String),
      validateCommand s.whitelist command args = some .SAFE →
      (executeCommand env s command args timeoutOpt requestedBy).2.2 =
        [.execCall { file := command, argv := args,
                     timeout := some (resolvedTimeout timeoutOpt s.defaultTimeout),
                     shell := some s.shell }]) ∧
    (∀ (env : Env) (s : ServiceState) (id : String) (pc : PendingCommand),
      s.pendingCommands.get? id = some pc →
      ((approveCommand env s id).2.2).head?
        = some (.execCall { file := pc.command, argv := pc.args,
                            timeout := none, shell := some s.shell })) := by
  constructor
  · intro env s command args timeoutOpt requestedBy hval
    simp only [executeCommand, hval]
    cases hout : env.execResult (ExecCall.mk command args
        (some (resolvedTimeout timeoutOpt s.defaultTimeout)) (some s.shell)) with
    | ok o e => rfl
    | threw t =>
      cases t with
      | error m => rfl
      | nonError => rfl
  · intro env s id pc h
    obtain ⟨rest, hr⟩ := approve_trace_structure env s id pc h
    rw [hr]
    rfl

theorem c4_timeout_only_on_safe_path_witness :
    (executeCommand envAppOk defaultService "ls" ["-la"] none none).2.2 =
      [.execCall { file := "ls", argv := ["-la"],
                   timeout := some (resolvedTimeout none 30000),
                   shell := some "/bin/zsh" }] ∧
    ((approveCommand envAppOk approveState "id1").2.2).head?
      = some (.execCall { file := "mv", argv := ["a", "b"],
                          timeout := none, shell := some "/bin/zsh" }) :=
  ⟨c4_timeout_only_on_safe_path.1 envAppOk defaultService "ls" ["-la"] none none rfl,
   c4_timeout_only_on_safe_path.2 envAppOk approveState "id1" pendingMv rfl⟩

/-- Claim C3: for a registered non-Forbidden entry with a nonempty matcher
list, any positional failure (a supplied argument differing from its
exact-string matcher, failing its pattern matcher, or sitting beyond the
matcher list) forces the classification RequiresApproval regardless of the
entry's configured level, and `executeCommand` then routes the request into
the approval queue: the caller gets a suspension on the fresh id, the queue
gains the original request, the only effect is the `pending` event — nothing
is thrown and no process is spawned. -/
theorem c3_positional_failure_downgrades_to_approval
    (env : Env) (s : ServiceState) (command : String) (args : List String)
    (timeoutOpt : Option Nat) (requestedBy : Option String)
    (entry : CommandWhitelistEntry) (matchers : List ArgMatcher)
    (hentry : s.whitelist.get? (baseCommand command) = some entry)
    (hnf : entry.securityLevel ≠ .FORBIDDEN)
    (hm : entry.allowedArgs = some matchers)
    (hne : matchers ≠ [])
    (hfail : positionalCheckFails matchers args) :
    validateCommand s.whitelist command args = some .REQUIRES_APPROVAL ∧
    (executeCommand env s command args timeoutOpt requestedBy).1
      = .pendingWait env.freshId ∧
    ((executeCommand env s command args timeoutOpt requestedBy).2.1.pendingCommands.get?
        env.freshId
      = some { id := env.freshId, command := command, args := args,
               requestedAt := env.now, requestedBy := requestedBy }) ∧
    (executeCommand env s command args timeoutOpt requestedBy).2.2
      = [.emit (.pending { id := env.freshId, command := command, args := args,
                           requestedAt := env.now, requestedBy := requestedBy })] := by
  have hinvalid := positionalCheckFails_invalid matchers args hfail
  have hpos : 0 < matchers.length := by
    cases matchers with
    | nil => exact absurd rfl hne
    | cons a l => simp
  have hval : validateCommand s.whitelist command args = some .REQUIRES_APPROVAL := by
    simp only [validateCommand, hentry, hm, if_neg hnf, if_pos hpos, hinvalid]
    rfl
  refine ⟨hval, ?_, ?_, ?_⟩
  · unfold executeCommand
    rw [hval]
    rfl
  · unfold executeCommand
    rw [hval]
    exact MapStr.get?_set_self s.pendingCommands env.freshId _
  · unfold executeCommand
    rw [hval]
    rfl

theorem c3_positional_failure_downgrades_to_approval_witness :
    validateCommand matcherService.whitelist "git" ["push"]
      = some .REQUIRES_APPROVAL ∧
    (executeCommand envAppOk matcherService "git" ["push"] none none).1
      = .pendingWait "uuid-1" ∧
    ((executeCommand envAppOk matcherService "git" ["push"] none none).2.1.pendingCommands.get?
        "uuid-1"
      = some { id := "uuid-1", command := "git", args := ["push"],
               requestedAt := 0, requestedBy := none }) ∧
    (executeCommand envAppOk matcherService "git" ["push"] none none).2.2
      = [.emit (.pending { id := "uuid-1", command := "git", args := ["push"],
                           requestedAt := 0, requestedBy := none })] :=
  c3_positional_failure_downgrades_to_approval envAppOk matcherService "git" ["push"]
    none none gitEntry [.exactStr "status"] rfl (by decide) rfl (by simp)
    (Or.inr ⟨0, "push", .exactStr "status", rfl, rfl, by decide⟩)

/-- Claim C5 counterexample: the same underlying execution failure
(`Error("boom")`) surfaces as `Command execution failed: boom` on the
immediate Safe path but as the raw `boom` on the post-approval path — the
two reports are not identical. -/
theorem c5_counterexample_error_wrapping_differs :
    (executeCommand envBoom defaultService "echo" ["hi"] none none).1
      = .thrown (.error "Command execution failed: boom") ∧
    (approveCommand envBoom echoPendingState "id1").1 = .thrown (.error "boom") ∧
    (Effect.rejectCont "id1" (.error "boom")
        ∈ (approveCommand envBoom echoPendingState "id1").2.2) ∧
    ("Command execution failed: boom" ≠ "boom") := by
  decide

/-- Claim C5 (amended): when the post-approval execution throws
`Error(m)`, `approveCommand` emits a `failed` event and delivers the raw
underlying error — both to the stored continuation and to its own caller —
while the immediate Safe path reports the same underlying failure with its
message wrapped as `Command execution failed: m`; the two paths do not
report identically. -/
theorem c5_approval_failure_delivered_raw
    (env : Env) (s : ServiceState) (id : String) (pc : PendingCommand) (m : String)
    (h : s.pendingCommands.get? id = some pc)
    (hout : env.execResult { file := pc.command, argv := pc.args,
                             timeout := none, shell := some s.shell }
        = .threw (.error m)) :
    (approveCommand env s id).1 = .thrown (.error m) ∧
    (approveCommand env s id).2.2 =
      [.execCall { file := pc.command, argv := pc.args,
                   timeout := none, shell := some s.shell },
       .deletePending id,
       .emit (.failed id (.error m)),
       .rejectCont id (.error m)] ∧
    (∀ (env2 : Env) (s2 : ServiceState) (c : String) (a : List String)
        (timeoutOpt : Option Nat) (requestedBy : Option String),
      validateCommand s2.whitelist c a = some .SAFE →
      env2.execResult { file := c, argv := a,
                        timeout := some (resolvedTimeout timeoutOpt s2.defaultTimeout),
                        shell := some s2.shell } = .threw (.error m) →
      (executeCommand env2 s2 c a timeoutOpt requestedBy).1
        = .thrown (.error ("Command execution failed: " ++ m))) := by
  refine ⟨?_, ?_, ?_⟩
  · simp only [approveCommand, h, hout]
  · simp only [approveCommand, h, hout]
  · intro env2 s2 c a timeoutOpt requestedBy hval hout2
    simp only [executeCommand, hval, hout2]
    rfl

theorem c5_approval_failure_delivered_raw_witness :
    (approveCommand envBoom echoPendingState "id1").1 = .thrown (.error "boom") ∧
    (approveCommand envBoom echoPendingState "id1").2.2 =
      [.execCall { file := "echo", argv := ["hi"],
                   timeout := none, shell := some "/bin/zsh" },
       .deletePending "id1",
       .emit (.failed "id1" (.error "boom")),
       .rejectCont "id1" (.error "boom")] ∧
    (executeCommand envBoom defaultService "echo" ["hi"] none none).1
      = .thrown (.error ("Command execution failed: " ++ "boom")) :=
  ⟨(c5_approval_failure_delivered_raw envBoom echoPendingState "id1" pendingEcho "boom"
      rfl rfl).1,
   (c5_approval_failure_delivered_raw envBoom echoPendingState "id1" pendingEcho "boom"
      rfl rfl).2.1,
   (c5_approval_failure_delivered_raw envBoom echoPendingState "id1" pendingEcho "boom"
      rfl rfl).2.2 envBoom defaultService "echo" ["hi"] none none rfl rfl⟩

/-- Claim C6: resolving an id (by approval — whatever the process outcome —
or by denial) removes it from the pending map and signals the stored
continuation exactly once; afterwards any `approveCommand` or `denyCommand`
on the same id observes absence, fails with the NotFound error and performs
no effects. -/
theorem c6_exactly_one_resolution (env env2 : Env) (s : ServiceState)
    (id : String) (pc : PendingCommand) (reason reason2 : String)
    (h : s.pendingCommands.get? id = some pc) :
    ((approveCommand env s id).2.1.pendingCommands.get? id = none ∧
     resolutionCount id (approveCommand env s id).2.2 = 1 ∧
     approveCommand env2 (approveCommand env s id).2.1 id
       = (.thrown (.error ("No pending command with ID: " ++ id)),
          (approveCommand env s id).2.1, []) ∧
     denyCommand (approveCommand env s id).2.1 id reason
       = (some (.error ("No pending command with ID: " ++ id)),
          (approveCommand env s id).2.1, [])) ∧
    ((denyCommand s id reason).2.1.pendingCommands.get? id = none ∧
     resolutionCount id (denyCommand s id reason).2.2 = 1 ∧
     approveCommand env2 (denyCommand s id reason).2.1 id
       = (.thrown (.error ("No pending command with ID: " ++ id)),
          (denyCommand s id reason).2.1, []) ∧
     denyCommand (denyCommand s id reason).2.1 id reason2
       = (some (.error ("No pending command with ID: " ++ id)),
          (denyCommand s id reason).2.1, [])) := by
  have hNFa : ∀ s2 : ServiceState, s2.pendingCommands.get? id = none →
      approveCommand env2 s2 id
        = (.thrown (.error ("No pending command with ID: " ++ id)), s2, []) := by
    intro s2 h2
    simp only [approveCommand, h2]
  have hNFd : ∀ (s2 : ServiceState) (r : String),
      s2.pendingCommands.get? id = none →
      denyCommand s2 id r
        = (some (.error ("No pending command with ID: " ++ id)), s2, []) := by
    intro s2 r h2
    simp only [denyCommand, h2]
  constructor
  · have hstate : (approveCommand env s id).2.1.pendingCommands
        = s.pendingCommands.delete id := by
      simp only [approveCommand, h]
      cases hout : env.execResult (ExecCall.mk pc.command pc.args none (some s.shell)) with
      | ok o e => rfl
      | threw t =>
        cases t with
        | error m => rfl
        | nonError => rfl
    have hcount : resolutionCount id (approveCommand env s id).2.2 = 1 := by
      simp only [approveCommand, h]
      cases hout : env.execResult (ExecCall.mk pc.command pc.args none (some s.shell)) with
      | ok o e => simp [resolutionCount]
      | threw t =>
        cases t with
        | error m => simp [resolutionCount]
        | nonError => simp [resolutionCount]
    have hnone : (approveCommand env s id).2.1.pendingCommands.get? id = none := by
      rw [hstate]
      exact MapStr.get?_delete_self s.pendingCommands id
    exact ⟨hnone, hcount, hNFa _ hnone, hNFd _ reason hnone⟩
  · have hstate2 : (denyCommand s id reason).2.1.pendingCommands
        = s.pendingCommands.delete id := by
      simp only [denyCommand, h]
    have hcount2 : resolutionCount id (denyCommand s id reason).2.2 = 1 := by
      simp only [denyCommand, h]
      simp [resolutionCount]
    have hnone2 : (denyCommand s id reason).2.1.pendingCommands.get? id = none := by
      rw [hstate2]
      exact MapStr.get?_delete_self s.pendingCommands id
    exact ⟨hnone2, hcount2, hNFa _ hnone2, hNFd _ reason2 hnone2⟩

theorem c6_exactly_one_resolution_witness :
    ((approveCommand envAppOk approveState "id1").2.1.pendingCommands.get? "id1" = none ∧
     resolutionCount "id1" (approveCommand envAppOk approveState "id1").2.2 = 1 ∧
     approveCommand envBoom (approveCommand envAppOk approveState "id1").2.1 "id1"
       = (.thrown (.error ("No pending command with ID: " ++ "id1")),
          (approveCommand envAppOk approveState "id1").2.1, []) ∧
     denyCommand (approveCommand envAppOk approveState "id1").2.1 "id1" "nope"
       = (some (.error ("No pending command with ID: " ++ "id1")),
          (approveCommand envAppOk approveState "id1").2.1, [])) ∧
    ((denyCommand approveState "id1" "nope").2.1.pendingCommands.get? "id1" = none ∧
     resolutionCount "id1" (denyCommand approveState "id1" "nope").2.2 = 1 ∧
     approveCommand envBoom (denyCommand approveState "id1" "nope").2.1 "id1"
       = (.thrown (.error ("No pending command with ID: " ++ "id1")),
          (denyCommand approveState "id1" "nope").2.1, []) ∧
     denyCommand (denyCommand approveState "id1" "nope").2.1 "id1" "again"
       = (some (.error ("No pending command with ID: " ++ "id1")),
          (denyCommand approveState "id1" "nope").2.1, [])) :=
  c6_exactly_one_resolution envAppOk envBoom approveState "id1" pendingMv "nope" "again" rfl

/-- Claim C7: a command whose base name is absent from the registry makes
`executeCommand` throw `Command not whitelisted` and return with the state
unchanged and an empty effect trace (no process spawned, no pending entry);
a command whose base name is registered Forbidden makes it throw
`Command is forbidden` for every argument list and for every matcher
configuration carried by the entry (the quantification over `entry` shows
the matchers are never consulted), again with no effects. -/
theorem c7_unlisted_and_forbidden_never_spawn (env : Env) (s : ServiceState)
    (command : String) (args : List String)
    (timeoutOpt : Option Nat) (requestedBy : Option String) :
    (s.whitelist.get? (baseCommand command) = none →
      executeCommand env s command args timeoutOpt requestedBy
        = (.thrown (.error ("Command not whitelisted: " ++ command)), s, [])) ∧
    (∀ entry : CommandWhitelistEntry,
      s.whitelist.get? (baseCommand command) = some entry →
      entry.securityLevel = .FORBIDDEN →
      validateCommand s.whitelist command args = some .FORBIDDEN ∧
      executeCommand env s command args timeoutOpt requestedBy
        = (.thrown (.error ("Command is forbidden: " ++ command)), s, [])) := by
  constructor
  · intro h
    have hval : validateCommand s.whitelist command args = none := by
      simp only [validateCommand, h]
    unfold executeCommand
    rw [hval]
  · intro entry he hf
    have hval : validateCommand s.whitelist command args = some .FORBIDDEN := by
      simp only [validateCommand, he, hf]
      rfl
    refine ⟨hval, ?_⟩
    unfold executeCommand
    rw [hval]
    rfl

theorem c7_unlisted_and_forbidden_never_spawn_witness :
    executeCommand envAppOk defaultService "frobnicate" [] none none
      = (.thrown (.error ("Command not whitelisted: " ++ "frobnicate")),
         defaultService, []) ∧
    validateCommand defaultService.whitelist "rm" ["-rf", "/"] = some .FORBIDDEN ∧
    executeCommand envAppOk defaultService "rm" ["-rf", "/"] none none
      = (.thrown (.error ("Command is forbidden: " ++ "rm")), defaultService, []) :=
  ⟨(c7_unlisted_and_forbidden_never_spawn envAppOk defaultService "frobnicate" []
      none none).1 rfl,
   ((c7_unlisted_and_forbidden_never_spawn envAppOk defaultService "rm" ["-rf", "/"]
      none none).2
      { command := "rm", securityLevel := .FORBIDDEN, allowedArgs := none,
        description := some "Remove files or directories" } rfl rfl).1,
   ((c7_unlisted_and_forbidden_never_spawn envAppOk defaultService "rm" ["-rf", "/"]
      none none).2
      { command := "rm", securityLevel := .FORBIDDEN, allowedArgs := none,
        description := some "Remove files or directories" } rfl rfl).2⟩

/-- Claim C8 counterexample: for the empty command name (which contains no
`'/'`) and the prefix `a`, path-qualification is not classification
invariant: with `a/` registered Safe, the qualified command `a/` (that is,
`a` ++ `/` ++ the empty name) classifies as Safe while the bare empty name
is not whitelisted — the `|| command` fallback makes the lookup use the full
slash-terminated string instead of the final (empty) segment. -/
theorem c8_counterexample_empty_final_segment :
    ('/' ∉ ("" : String).data) ∧
    ("a" ++ "/" ++ "" : String) = "a/" ∧
    validateCommand slashKeyReg ("a" ++ "/" ++ "") [] = some .SAFE ∧
    validateCommand slashKeyReg "" [] = none := by
  decide

/-- Claim C8 (amended): classification is invariant under path prefixes for
every NONEMPTY command name without `'/'`: for every registry, every
argument list, every directory prefix `p` and every nonempty slash-free name
`n`, classifying `p ++ "/" ++ n` equals classifying `n`, because only the
final path segment is looked up. -/
theorem c8_prefix_invariance (reg : MapStr CommandWhitelistEntry)
    (p n : String) (args : List String) (hn : n ≠ "") (hs : '/' ∉ n.data) :
    validateCommand reg (p ++ "/" ++ n) args = validateCommand reg n args := by
  unfold validateCommand
  rw [baseCommand_prefixed p n hn hs, baseCommand_no_slash n hn hs]

theorem c8_prefix_invariance_witness :
    ("/usr/bin" ++ "/" ++ "ls" : String) = "/usr/bin/ls" ∧
    validateCommand defaultService.whitelist ("/usr/bin" ++ "/" ++ "ls") ["-la"]
      = validateCommand defaultService.whitelist "ls" ["-la"] :=
  ⟨rfl,
   c8_prefix_invariance defaultService.whitelist "/usr/bin" "ls" ["-la"]
     (by decide) (by decide)⟩

/-- Claim C9 counterexample: with `ls` registered Safe under the matchers
`["", "x"]`, the single supplied argument `""` equals its exact-string
matcher and there are fewer arguments than matchers, yet classification is
RequiresApproval, not the configured Safe level: the JS falsiness guard
`if (!pattern) return false` rejects the empty-string matcher before the
equality test. -/
theorem c9_counterexample_empty_string_matcher :
    ([""].length < [ArgMatcher.exactStr "", ArgMatcher.exactStr "x"].length) ∧
    matcherAccepts (ArgMatcher.exactStr "") "" = true ∧
    validateCommand emptyMatcherReg "ls" [""] = some .REQUIRES_APPROVAL ∧
    validateCommand emptyMatcherReg "ls" [""] ≠ some .SAFE := by
  decide

/-- Claim C9 (amended): for a registered non-Forbidden entry with a nonempty
matcher list, supplying at most as many arguments as there are matchers is
accepted at the entry's configured level whenever every supplied argument
passes the source's positional check — which is the matcher's own test
except that an exact matcher equal to the empty string rejects every
argument (JS falsiness); missing trailing arguments are never a mismatch,
and the empty argument list is always classified at the configured level. -/
theorem c9_shorter_args_accepted (reg : MapStr CommandWhitelistEntry)
    (command : String) (args : List String)
    (entry : CommandWhitelistEntry) (matchers : List ArgMatcher)
    (hentry : reg.get? (baseCommand command) = some entry)
    (hnf : entry.securityLevel ≠ .FORBIDDEN)
    (hm : entry.allowedArgs = some matchers) (hne : matchers ≠ [])
    (hlen : args.length ≤ matchers.length)
    (hok : ∀ i (hi : i < args.length), argCheck matchers i (args.get ⟨i, hi⟩) = true) :
    validateCommand reg command args = some entry.securityLevel ∧
    validateCommand reg command [] = some entry.securityLevel := by
  have hok2 : ∀ i a, args.get? i = some a → argCheck matchers i a = true := by
    intro i a ha
    have hi : i < args.length := by
      by_contra hge
      rw [List.get?_eq_none.mpr (Nat.le_of_not_lt hge)] at ha
      exact Option.noConfusion ha
    rw [List.get?_eq_get hi] at ha
    cases ha
    exact hok i hi
  have hvalid : argsValidFrom matchers 0 args = true := by
    refine (argsValidFrom_iff matchers 0 args).mpr ?_
    intro i a ha
    rw [Nat.zero_add]
    exact hok2 i a ha
  have hpos : 0 < matchers.length := by
    cases matchers with
    | nil => exact absurd rfl hne
    | cons a l => simp
  constructor
  · simp only [validateCommand, hentry, hm, if_neg hnf, if_pos hpos, hvalid]
    rfl
  · simp only [validateCommand, hentry, hm, if_neg hnf, if_pos hpos]
    rfl

theorem c9_shorter_args_accepted_witness :
    validateCommand twoMatcherReg "git" ["log"] = some CommandSecurityLevel.SAFE ∧
    validateCommand twoMatcherReg "git" [] = some CommandSecurityLevel.SAFE :=
  c9_shorter_args_accepted twoMatcherReg "git" ["log"]
    { command := "git", securityLevel := .SAFE,
      allowedArgs := some [.exactStr "log", .pattern (fun a => a == "-n")],
      description := none }
    [.exactStr "log", .pattern (fun a => a == "-n")]
    rfl (by decide) rfl (by simp) (by decide) (by decide)

/-- Claim C10: for every command string whose character data ends in `'/'`
(an empty final path segment), the `|| command` fallback makes the derived
base name the entire original string, so the registry lookup uses the full
slash-terminated string; when that full string is not a registry key the
command is classified as not whitelisted. -/
theorem c10_trailing_slash_uses_full_string (reg : MapStr CommandWhitelistEntry)
    (c : String) (args : List String) (l : List Char) (h : c.data = l ++ ['/']) :
    baseCommand c = c ∧
    (reg.get? c = none → validateCommand reg c args = none) := by
  refine ⟨baseCommand_trailing_slash c l h, fun hr => ?_⟩
  simp only [validateCommand, baseCommand_trailing_slash c l h, hr]

theorem c10_trailing_slash_uses_full_string_witness :
    baseCommand "ls/" = "ls/" ∧
    validateCommand defaultService.whitelist "ls/" [] = none ∧
    validateCommand defaultService.whitelist "ls" [] = some .SAFE :=
  ⟨(c10_trailing_slash_uses_full_string defaultService.whitelist "ls/" [] ['l', 's']
      (by decide)).1,
   (c10_trailing_slash_uses_full_string defaultService.whitelist "ls/" [] ['l', 's']
      (by decide)).2 rfl,
   by decide⟩
